import Mathlib

set_option autoImplicit false

namespace GuessFace

/-!
Shallow embedding of `src/tasks/build-api.js` (the guessface-api build task).

Strings are modelled as lists of characters (`Str`).  Promise settlement is
modelled by the type `Settle`: a deferred that is never resolved nor rejected
is `pending`, a fulfilled promise is `val`, a rejected one is `err`.  The
external collaborators (imagemagick `identify` / `resize`, the filesystem and
`require` of JSON metadata) are modelled by an environment `Env` of total
functions; an `identify` or `resize` call that errors is `none`.  The only
scheduler-dependent datum in the pipeline is which of the two concurrent
format probes (png / jpg) completes last — `im.identify` callbacks both write
the shared `imgFileData` object, so the last successful callback wins; this
completion order is the `Sched` parameter, kept separate from the inputs.
-/

/-- Strings of the embedding: lists of characters. -/
abbrev Str := List Char

/-- Settlement state of a promise: never settles, fulfilled, or rejected. -/
inductive Settle (α : Type) where
  | pending : Settle α
  | val : α → Settle α
  | err : Str → Settle α
deriving DecidableEq

/-- True when the promise was fulfilled with a value. -/
def Settle.isVal {α : Type} : Settle α → Bool
  | .val _ => true
  | _ => false

/-- The fulfilled value, when there is one. -/
def Settle.toOption {α : Type} : Settle α → Option α
  | .val a => some a
  | _ => none

/-- Image metadata returned by `im.identify`: pixel dimensions.  JavaScript
truthiness of `metadata.width` / `metadata.height` is modelled by `≠ 0`. -/
structure ImgMeta where
  width : Nat
  height : Nat
deriving DecidableEq

/-- The two accepted source-image formats probed by `createImageVariants`. -/
inductive Fmt where
  | png : Fmt
  | jpg : Fmt
deriving DecidableEq

/-- External world of one run: `identify` models `im.identify` (`none` when
the callback gets no metadata), `readFile` models `fs.readFileSync` on an
identified path, `resize` models `im.resize` on (source bytes, width, format)
(`none` when the tool errors), and `qMeta` models
`require('../src/questions/' + dir + '/index.json')` (`none` when the require
throws, i.e. the metadata file is absent or unparseable). -/
structure Env where
  identify : Str → Option ImgMeta
  readFile : Str → Str
  resize : Str → Nat → Str → Option Str
  qMeta : Str → Option Str

/-- Scheduler choice: for each extension-less image path whose two format
probes both succeed, which probe's callback ran last (and therefore left its
data in the shared `imgFileData` object). -/
abbrev Sched := Str → Fmt

/-- Static configuration (the `defaults` object of `build-api.js`, lines
57-64, merged with `build-api-config.json`).  The source field
`apiPathPrefix` is called `apiPre` here. -/
structure Config where
  apiOutputDir : Str
  imageOutputSubDir : Str
  apiPre : Str
  imgSizes : List Nat
  imgFormat : Str

/-- JavaScript value used as a `questionId`: a number for ordinary questions
or a string (the sentinel written for example questions). -/
inductive JsId where
  | num : Nat → JsId
  | str : Str → JsId
deriving DecidableEq

/-- Decimal rendering of a natural number, as in JS string concatenation. -/
def natStr (n : Nat) : Str := (Nat.repr n).data

/-- Rendering of a `questionId` in a path, as JS `+` would coerce it. -/
def idStr : JsId → Str
  | .num n => natStr n
  | .str s => s

/-- The extension suffix appended for a format probe (`'.' + imgType`). -/
def fmtExt : Fmt → Str
  | .png => ['.', 'p', 'n', 'g']
  | .jpg => ['.', 'j', 'p', 'g']

/-- Full probe path for one format: `imgPath + '.' + imgType` (line 356). -/
def probePath (imgPath : Str) (f : Fmt) : Str := imgPath ++ fmtExt f

/-! ### JavaScript `String.prototype.split` on a nonempty separator -/

/-- Index of the leftmost occurrence of `sep` in `s`, if any. -/
def firstOcc (sep : Str) : Str → Option Nat
  | [] => if sep.isEmpty then some 0 else none
  | c :: rest =>
    if sep.isPrefixOf (c :: rest) then some 0
    else (firstOcc sep rest).map (fun i => i + 1)

/-- Recursion core of the split: cut at the leftmost occurrence and recurse
on the remainder after it.  Each step on a nonempty separator consumes at
least one character, so fuel `s.length` always suffices. -/
def splitGo (sep : Str) : Nat → Str → List Str
  | 0, s => [s]
  | fuel + 1, s =>
    match firstOcc sep s with
    | none => [s]
    | some i => s.take i :: splitGo sep fuel (s.drop (i + sep.length))

/-- JS `s.split(sep)` for a nonempty separator: pieces of `s` between
successive non-overlapping leftmost occurrences of `sep`.  (For an empty
separator the model returns `[s]`; the configured `apiOutputDir` separator is
never empty in practice.) -/
def splitOnL (sep : Str) (s : Str) : List Str :=
  if sep = [] then [s] else splitGo sep s.length s

/-- Whether `sep` occurs somewhere in `s`. -/
def containsSub (sep s : Str) : Bool := (firstOcc sep s).isSome

/-- API path derivation of `createImageVariant` (lines 486-494): split the
generated file name on `config.apiOutputDir`; if the separator does not occur
the full name is returned, otherwise the configured API path prefix is
prepended to the piece after the first occurrence. -/
def getApiFilePath (cfg : Config) (name : Str) : Str :=
  let parts := splitOnL cfg.apiOutputDir name
  if parts.length == 1 then name
  else cfg.apiPre ++ parts.getD 1 []

/-! ### Source-image resolution (the probe phase of `createImageVariants`) -/

/-- The data the probe callbacks store in the shared `imgFileData` object
(lines 366-369): metadata, the resolved path, and the role name. -/
structure ImgFileData where
  meta : ImgMeta
  path : Str
  imgName : Str
deriving DecidableEq

/-- Outcome of the two concurrent format probes of `createImageVariants`
(lines 352-388): each successful `im.identify` callback overwrites the shared
`imgFileData`, so when both formats yield metadata the probe that completed
last (per the scheduler) wins; when neither yields metadata nothing is
stored. -/
def resolveSource (env : Env) (sch : Sched) (imgPath imgName : Str) :
    Option ImgFileData :=
  match env.identify (probePath imgPath .png), env.identify (probePath imgPath .jpg) with
  | none, none => none
  | some m, none => some ⟨m, probePath imgPath .png, imgName⟩
  | none, some m => some ⟨m, probePath imgPath .jpg, imgName⟩
  | some mp, some mj =>
    match sch imgPath with
    | .png => some ⟨mp, probePath imgPath .png, imgName⟩
    | .jpg => some ⟨mj, probePath imgPath .jpg, imgName⟩

/-- Whether at least one of the two format probes yields metadata (this is
scheduler-independent, unlike the choice between them). -/
def sourceFound (env : Env) (imgPath : Str) : Bool :=
  (env.identify (probePath imgPath .png)).isSome ||
    (env.identify (probePath imgPath .jpg)).isSome

/-! ### Variant generation -/

/-- Per-role result object of `createImageVariants` (lines 391-393 and
405-411): the aspect ratio of the resolved source (called `aspectRatio` in
the source; `null` unless both dimensions are truthy) and the map from target
width to generated API path. -/
structure VariantsData where
  aspect : Option ℚ
  srcs : List (Nat × Str)
deriving DecidableEq

/-- Output file name built by `createImageVariant` (lines 457-467):
`outputDir + '/' + imgName + '/' + 'r' + roundId + 'q' + questionId + '.' +
imgName + '.' + size + '.' + config.imgFormat`. -/
def outName (cfg : Config) (outputDir : Str) (srcImg : ImgFileData)
    (size : Nat) (roundId : Nat) (qid : JsId) : Str :=
  outputDir ++ ['/'] ++ srcImg.imgName ++ ['/'] ++
    ['r'] ++ natStr roundId ++ ['q'] ++ idStr qid ++ ['.'] ++
    srcImg.imgName ++ ['.'] ++ natStr size ++ ['.'] ++ cfg.imgFormat

/-- One resize task, `createImageVariant` (lines 448-506): read the source
bytes, resize to the target width; on tool error the variant promise is
rejected, otherwise the file is written and the promise resolves with the
derived API path. -/
def createImageVariant (env : Env) (cfg : Config) (srcImg : ImgFileData)
    (outputDir : Str) (size : Nat) (roundId : Nat) (qid : JsId) : Settle Str :=
  let imgData := env.readFile srcImg.path
  let name := outName cfg outputDir srcImg size roundId qid
  match env.resize imgData size cfg.imgFormat with
  | none => .err ['r', 'e', 's', 'i', 'z', 'e']
  | some _ => .val (getApiFilePath cfg name)

/-- Per-role pipeline, `createImageVariants` (lines 329-440).  The two format
probes are awaited with `Q.allSettled`; if neither stored any data the
continuation throws (lines 399-403), so the role's deferred
`imgProcessComplete` is never resolved nor rejected: the role stays
`pending`.  Otherwise the aspect ratio is computed from the resolved
metadata, one `createImageVariant` runs per configured width, and after all
of them settle the role resolves with the widths whose resize succeeded. -/
def createImageVariants (env : Env) (sch : Sched) (cfg : Config)
    (imgPath distDir imgName : Str) (roundId : Nat) (qid : JsId) :
    Settle VariantsData :=
  let outputDir := distDir ++ ['r', 'o', 'u', 'n', 'd', '-'] ++ natStr roundId
    ++ ['/'] ++ ['q', 'u', 'e', 's', 't', 'i', 'o', 'n', '-'] ++ idStr qid
  match resolveSource env sch imgPath imgName with
  | none => .pending
  | some fd =>
    let asp : Option ℚ :=
      if fd.meta.height ≠ 0 ∧ fd.meta.width ≠ 0 then
        some (mkRat fd.meta.height fd.meta.width)
      else none
    let srcs := cfg.imgSizes.filterMap (fun size =>
      match createImageVariant env cfg fd outputDir size roundId qid with
      | .val p => some (size, p)
      | _ => none)
    .val { aspect := asp, srcs := srcs }

/-! ### Question processing -/

/-- The `roundData` back-reference attached to every question (lines
169-172). -/
structure RoundRef where
  roundId : Nat
  title : Str
deriving DecidableEq

/-- A question result object: author metadata (opaque), the assigned
`questionId`, the round back-reference and the `imgs` map keyed by role. -/
structure QData where
  meta : Str
  questionId : JsId
  roundRef : RoundRef
  imgs : List (Str × VariantsData)
deriving DecidableEq

/-- The three fixed image roles (line 269): `a`, `b`, `mix`. -/
def imgKeys : List Str := [['a'], ['b'], ['m', 'i', 'x']]

/-- Source directory of a question's images (line 262):
`'./src/questions/' + questionDir`. -/
def questionImgDir (questionDir : Str) : Str :=
  ['.', '/', 's', 'r', 'c', '/', 'q', 'u', 'e', 's', 't', 'i', 'o', 'n', 's',
    '/'] ++ questionDir

/-- Per-question pipeline, `createQuestionsImages` (lines 248-321): one
`createImageVariants` per role; each role's `imgReady` deferred resolves only
when that role's promise resolves (it never rejects), so the question's
promise resolves — with every settled role stored under its key in `imgs` —
exactly when all three roles resolve, and stays pending otherwise. -/
def createQuestionsImages (env : Env) (sch : Sched) (cfg : Config)
    (questionDir : Str) (qd : QData) : Settle QData :=
  let distDir := cfg.apiOutputDir ++ cfg.imageOutputSubDir
  let rs := imgKeys.map (fun k =>
    (k, createImageVariants env sch cfg (questionImgDir questionDir ++ ['/'] ++ k)
      distDir k qd.roundRef.roundId qd.questionId))
  if rs.all (fun p => p.2.isVal) then
    .val { qd with
      imgs := rs.filterMap (fun p => p.2.toOption.map (fun v => (p.1, v))) }
  else .pending

/-! ### Round processing and the top-level build -/

/-- One entry of the master `questions/index.json` (the input round spec):
title, ordered question directory references, optional example reference. -/
structure RoundSpec where
  title : Str
  questions : List Str
  example? : Option Str
deriving DecidableEq

/-- The round object resolved by `processRound`: `questionsData` holds the
numbered questions in identity order (the array written at line 182 is dense
because identities are consecutive), `exampleData` is stored separately
(line 186). -/
structure RoundResult where
  roundId : Nat
  title : Str
  questionsData : List QData
  exampleData : Option QData
deriving DecidableEq

/-- Build the question object handed to `createQuestionsImages` (lines
157-172): author metadata plus the assigned identity and round
back-reference. -/
def mkQData (m : Str) (qid : JsId) (roundId : Nat) (title : Str) : QData :=
  { meta := m, questionId := qid, roundRef := ⟨roundId, title⟩, imgs := [] }

/-- `processRound` (lines 135-220).  Question directories whose metadata
fails to load are skipped without consuming an identity (`questionId ++`
runs only inside the `if (questionDataTemp = getQuestionData(...))` branch),
so the loaded questions get identities `0..n-1` in declared order; the
example reference, processed last with `isExample` set, gets the string
identity `'e'` outside the counter.  The round's deferred resolves — with the
dense `questionsData` array and the separate `exampleData` — exactly when
every pushed question promise settles, and stays pending otherwise. -/
def processRound (env : Env) (sch : Sched) (cfg : Config) (rd : RoundSpec)
    (i : Nat) : Settle RoundResult :=
  let loaded := rd.questions.filterMap
    (fun d => (env.qMeta d).map (fun m => (d, m)))
  let qResults := loaded.enum.map (fun p =>
    createQuestionsImages env sch cfg p.2.1
      (mkQData p.2.2 (.num p.1) i rd.title))
  let exResult : Option (Settle QData) := rd.example?.bind (fun d =>
    (env.qMeta d).map (fun m =>
      createQuestionsImages env sch cfg d (mkQData m (.str ['e']) i rd.title)))
  if qResults.all Settle.isVal && exResult.all Settle.isVal then
    .val { roundId := i, title := rd.title,
           questionsData := qResults.filterMap Settle.toOption,
           exampleData := exResult.bind Settle.toOption }
  else .pending

/-- The aggregated API document (lines 91-93): rounds keyed by `roundId`,
which is the declaration index, so the array is dense and in order. -/
structure ApiData where
  rounds : List RoundResult
deriving DecidableEq

/-- `buildApiMaster` (lines 84-127): fan out `processRound` over the declared
rounds; `Q.allSettled(roundPromises)` fires — whereupon the index is saved
and the task promise resolves — exactly when every round promise settles
(round promises are only ever resolved, never rejected), and the build stays
pending otherwise. -/
def buildApiMaster (env : Env) (sch : Sched) (cfg : Config)
    (rounds : List RoundSpec) : Settle ApiData :=
  let rs := rounds.enum.map (fun p => processRound env sch cfg p.2 p.1)
  if rs.all Settle.isVal then .val ⟨rs.filterMap Settle.toOption⟩
  else .pending

/-- Observable events of one run: a round's promise settling, and the single
`saveJsonApi` write of `index.json` (lines 120-124, 511-514). -/
inductive BEv where
  | roundSettled : Nat → BEv
  | indexWritten : BEv
deriving DecidableEq

/-- Event trace of one run: each round that settles contributes its
settlement event, and the `Q.allSettled(roundPromises).then` continuation —
which performs the one `saveJsonApi` write — runs only after all of them,
i.e. only when every round settles. -/
def buildTrace (env : Env) (sch : Sched) (cfg : Config)
    (rounds : List RoundSpec) : List BEv :=
  let rs := rounds.enum.map (fun p => processRound env sch cfg p.2 p.1)
  (rs.enum.filterMap (fun p =>
    if p.2.isVal then some (BEv.roundSettled p.1) else none)) ++
  (if rs.all Settle.isVal then [BEv.indexWritten] else [])

/-! ### ConcurrencyLimiter (ThreadManager) -/

/-- Modelled from the spec: the `ThreadManager` module required at lines 53
and 76-77 of `src/tasks/build-api.js` (`./helpers/ThreadManager`) is not
under `src/`, so its slot pool is modelled from spec §4.1: a fixed capacity,
at most that many tasks in flight, further submissions queued in FIFO order
and started only when a slot frees, task failure not affecting slot
accounting.  The state carries the capacity, the number of running tasks,
the FIFO queue of waiting task ids, and two history lists: the order in
which tasks began running and the order in which they were submitted. -/
structure LimSt where
  cap : Nat
  running : Nat
  queue : List Nat
  started : List Nat
  submitted : List Nat
deriving DecidableEq

/-- Events seen by one limiter: a task submission (with its id) or a running
task finishing (successfully or not — slot accounting is the same). -/
inductive LimEv where
  | submit : Nat → LimEv
  | finish : LimEv
deriving DecidableEq

/-- Modelled from the spec: one limiter transition.  A submission starts
immediately when a slot is free and is queued otherwise; a finishing task
hands its slot to the queue head when one is waiting and frees it
otherwise. -/
def limStep (s : LimSt) : LimEv → LimSt
  | .submit t =>
    if s.running < s.cap then
      { s with
          running := s.running + 1
          started := s.started ++ [t]
          submitted := s.submitted ++ [t] }
    else
      { s with
          queue := s.queue ++ [t]
          submitted := s.submitted ++ [t] }
  | .finish =>
    match s.queue with
    | [] => { s with running := s.running - 1 }
    | t :: ts => { s with queue := ts, started := s.started ++ [t] }

/-- A fresh limiter of capacity `cap`. -/
def limInit (cap : Nat) : LimSt := ⟨cap, 0, [], [], []⟩

/-- Run a limiter of capacity `cap` over an event sequence. -/
def limRun (cap : Nat) (evs : List LimEv) : LimSt :=
  evs.foldl limStep (limInit cap)

/-- An event tagged with its resource class: identification calls go to the
`threadManager_imIdentify` instance, resize calls to `threadManager_imResize`
(lines 76-77 instantiate the two independently). -/
inductive ClassEv where
  | identCall : LimEv → ClassEv
  | resizeCall : LimEv → ClassEv
deriving DecidableEq

/-- One step of the pair of class limiters: each event touches only the
limiter of its own class. -/
def twoStep (s : LimSt × LimSt) : ClassEv → LimSt × LimSt
  | .identCall e => (limStep s.1 e, s.2)
  | .resizeCall e => (s.1, limStep s.2 e)

/-- Run the two class limiters (identification capacity `capI`, resize
capacity `capR`) over a tagged event sequence. -/
def twoRun (capI capR : Nat) (evs : List ClassEv) : LimSt × LimSt :=
  evs.foldl twoStep (limInit capI, limInit capR)

/-- Limiter invariant: the in-flight count never exceeds the capacity, a
nonempty queue means every slot is busy, and the tasks that began running
followed by the still-queued ones are exactly the submissions in submission
order (so tasks begin running in FIFO submission order). -/
def LimInv (s : LimSt) : Prop :=
  s.running ≤ s.cap ∧ (s.queue ≠ [] → s.running = s.cap) ∧
    s.started ++ s.queue = s.submitted

/-! ### Run-level success condition -/

/-- Every question whose metadata loads — referenced from a round's question
list or as its example — has, for each of the three roles, at least one of
the two format probes yielding metadata.  This is exactly the condition
under which no `createImageVariants` continuation throws. -/
def envOK (env : Env) (rounds : List RoundSpec) : Prop :=
  ∀ rd ∈ rounds, ∀ d ∈ rd.questions ++ rd.example?.toList,
    (env.qMeta d).isSome = true →
    ∀ k ∈ imgKeys, sourceFound env (questionImgDir d ++ ['/'] ++ k) = true

/-! ### Concrete fixtures for witnesses and counterexamples -/

/-- The default configuration of lines 57-64 (`./dist/api/`, `imgs/`, `/`,
widths 320/640/960, jpg output). -/
def cfgD : Config :=
  { apiOutputDir := ['.', '/', 'd', 'i', 's', 't', '/', 'a', 'p', 'i', '/'],
    imageOutputSubDir := ['i', 'm', 'g', 's', '/'],
    apiPre := ['/'],
    imgSizes := [320, 640, 960],
    imgFormat := ['j', 'p', 'g'] }

/-- A small configuration used to keep concrete evaluations readable: one
character of output directory, no subdirectory, no target widths. -/
def cfgW : Config :=
  { apiOutputDir := ['d'], imageOutputSubDir := [], apiPre := ['/'],
    imgSizes := [], imgFormat := ['j'] }

/-- Scheduler in which the png probe's callback always completes last. -/
def schD : Sched := fun _ => .png

/-- Scheduler in which the jpg probe's callback always completes last. -/
def schJ : Sched := fun _ => .jpg

/-- Environment with no identifiable image at all: every `im.identify`
yields no metadata, question metadata always loads. -/
def envNoImg : Env :=
  { identify := fun _ => none, readFile := fun _ => [],
    resize := fun _ _ _ => some [], qMeta := fun _ => some ['m'] }

/-- Environment where every probe identifies a square image and every resize
fails: everything settles but no variant is produced. -/
def envAllFailResize : Env :=
  { identify := fun _ => some ⟨1, 1⟩, readFile := fun _ => [],
    resize := fun _ _ _ => none, qMeta := fun _ => some ['m'] }

/-- Environment where every probe identifies a square image and every resize
succeeds. -/
def envAllOK : Env :=
  { identify := fun _ => some ⟨1, 1⟩, readFile := fun _ => [],
    resize := fun _ _ _ => some [], qMeta := fun _ => some ['m'] }

/-- A single round spec with one question and no example. -/
def roundsOneQ : List RoundSpec :=
  [{ title := ['t'], questions := [['q', '1']], example? := none }]

/-- A round spec with two questions and an example question. -/
def rspecTwoQEx : RoundSpec :=
  { title := ['t'], questions := [['q', '1'], ['q', '2']],
    example? := some ['x', 'q'] }

/-- Environment where only the 640 width fails to resize. -/
def envOneFail640 : Env :=
  { identify := fun _ => some ⟨1, 1⟩, readFile := fun _ => [],
    resize := fun _ s _ => if s == 640 then none else some [],
    qMeta := fun _ => some ['m'] }

/-- Environment where the question `q2` has no loadable metadata and every
image identifies (resizes all fail, which is irrelevant to settling). -/
def envOneBadMeta : Env :=
  { identify := fun _ => some ⟨1, 1⟩, readFile := fun _ => [],
    resize := fun _ _ _ => none,
    qMeta := fun d => if d = ['q', '2'] then none else some ['m'] }

/-- Environment where the role at base path `p` exists in both formats with
different dimensions (square png, 1×2 jpg). -/
def env7 : Env :=
  { identify := fun s =>
      if s = probePath ['p'] .png then some ⟨1, 1⟩
      else if s = probePath ['p'] .jpg then some ⟨1, 2⟩ else none,
    readFile := fun _ => [], resize := fun _ _ _ => some [],
    qMeta := fun _ => some ['m'] }

/-- Environment where the role at base path `p` exists only as png. -/
def envOnlyPng : Env :=
  { identify := fun s =>
      if s = probePath ['p'] .png then some ⟨1, 1⟩ else none,
    readFile := fun _ => [], resize := fun _ _ _ => some [],
    qMeta := fun _ => some ['m'] }

/-- The round spec with two questions and no example, shared by the
metadata-skip scenario. -/
def rdTwoQ : RoundSpec :=
  { title := ['t'], questions := [['q', '1'], ['q', '2']], example? := none }

/-- One-round list around `rdTwoQ`. -/
def roundsTwoQ : List RoundSpec := [rdTwoQ]

/-- Question input object as `processRound` builds it for the first loaded
question of round 0. -/
def qdW : QData := mkQData ['m'] (JsId.num 0) 0 ['t']

/-- Role result with a known aspect ratio and no variant (every resize
failed). -/
def vEmpty : VariantsData := { aspect := some (mkRat 1 1), srcs := [] }

/-- Resolved first question under `envAllFailResize` / `cfgW`. -/
def qW10 : QData :=
  { meta := ['m'], questionId := JsId.num 0, roundRef := ⟨0, ['t']⟩,
    imgs := [(['a'], vEmpty), (['b'], vEmpty), (['m', 'i', 'x'], vEmpty)] }

/-- Resolved second question under `envAllFailResize` / `cfgW`. -/
def qW10b : QData :=
  { meta := ['m'], questionId := JsId.num 1, roundRef := ⟨0, ['t']⟩,
    imgs := [(['a'], vEmpty), (['b'], vEmpty), (['m', 'i', 'x'], vEmpty)] }

/-- Resolved example question under `envAllFailResize` / `cfgW`. -/
def qW10e : QData :=
  { meta := ['m'], questionId := JsId.str ['e'], roundRef := ⟨0, ['t']⟩,
    imgs := [(['a'], vEmpty), (['b'], vEmpty), (['m', 'i', 'x'], vEmpty)] }

/-- Resolved round `rspecTwoQEx` under `envAllFailResize` / `cfgW`. -/
def rW4 : RoundResult :=
  { roundId := 0, title := ['t'], questionsData := [qW10, qW10b],
    exampleData := some qW10e }

/-- A resolved source image (already-identified square png). -/
def srcW8 : ImgFileData := ⟨⟨1, 1⟩, ['s'], ['a']⟩

/-- Output directory that starts with the configured output root. -/
def dirW8 : Str := cfgD.apiOutputDir ++ ['x']

/-- The part of the generated variant file name after the output root. -/
def restW8 : Str :=
  ['x', '/', 'a', '/', 'r', '0', 'q', '0', '.', 'a', '.', '3', '2', '0', '.',
    'j', 'p', 'g']

/-! ## Helper lemmas -/

theorem Settle.isVal_iff_exists {α : Type} {x : Settle α} :
    x.isVal = true ↔ ∃ a, x = .val a := by
  cases x <;> simp [Settle.isVal]

theorem all_map_general {α β : Type} (l : List α) (f : α → β) (p : β → Bool) :
    (l.map f).all p = l.all (fun a => p (f a)) := by
  induction l with
  | nil => rfl
  | cons a l ih => simp [List.all_cons, ih]

/-- Whether the two probes store anything is scheduler-independent. -/
theorem resolveSource_isSome (env : Env) (sch : Sched) (imgPath imgName : Str) :
    (resolveSource env sch imgPath imgName).isSome = sourceFound env imgPath := by
  unfold resolveSource sourceFound
  cases env.identify (probePath imgPath .png) <;>
    cases env.identify (probePath imgPath .jpg) <;>
    simp only [Option.isSome_some, Option.isSome_none, Bool.or_self,
      Bool.or_true, Bool.true_or]
  cases sch imgPath <;> rfl

/-- A role's promise resolves exactly when some format probe succeeds; with
no successful probe the continuation throws and the promise stays pending. -/
theorem createImageVariants_isVal (env : Env) (sch : Sched) (cfg : Config)
    (imgPath distDir imgName : Str) (rid : Nat) (qid : JsId) :
    (createImageVariants env sch cfg imgPath distDir imgName rid qid).isVal =
      sourceFound env imgPath := by
  have h := resolveSource_isSome env sch imgPath imgName
  unfold createImageVariants
  cases hr : resolveSource env sch imgPath imgName with
  | none =>
    rw [hr, Option.isSome_none] at h
    simp [Settle.isVal, ← h]
  | some fd =>
    rw [hr, Option.isSome_some] at h
    simp [Settle.isVal, ← h]

/-- A question's promise resolves exactly when all three roles' promises
resolve, i.e. when every role has an identifiable source image. -/
theorem createQuestionsImages_isVal (env : Env) (sch : Sched) (cfg : Config)
    (d : Str) (qd : QData) :
    (createQuestionsImages env sch cfg d qd).isVal =
      imgKeys.all (fun k => sourceFound env (questionImgDir d ++ ['/'] ++ k)) := by
  have hfun : (fun k => (createImageVariants env sch cfg
        (questionImgDir d ++ ['/'] ++ k) (cfg.apiOutputDir ++ cfg.imageOutputSubDir)
        k qd.roundRef.roundId qd.questionId).isVal) =
      (fun k => sourceFound env (questionImgDir d ++ ['/'] ++ k)) :=
    funext fun k => createImageVariants_isVal env sch cfg _ _ k _ _
  simp only [createQuestionsImages, all_map_general]
  rw [hfun]
  cases hb : imgKeys.all (fun k => sourceFound env (questionImgDir d ++ ['/'] ++ k)) with
  | true => simp [Settle.isVal]
  | false => simp [Settle.isVal]

/-- Resolution of a question's promise does not touch its metadata, its
assigned identity or its round back-reference. -/
theorem createQuestionsImages_val_fields {env : Env} {sch : Sched}
    {cfg : Config} {d : Str} {qd q' : QData}
    (h : createQuestionsImages env sch cfg d qd = .val q') :
    q'.questionId = qd.questionId ∧ q'.meta = qd.meta ∧
      q'.roundRef = qd.roundRef := by
  simp only [createQuestionsImages] at h
  split at h
  · cases h; exact ⟨rfl, rfl, rfl⟩
  · cases h

theorem enumFrom_all_snd {α : Type} (φ : α → Bool) :
    ∀ (l : List α) (s : Nat), ((l.enumFrom s).all (fun p => φ p.2)) = l.all φ := by
  intro l
  induction l with
  | nil => intro s; rfl
  | cons a l ih => intro s; simp only [List.enumFrom, List.all_cons, ih]

theorem exists_enum_of_mem {α : Type} {a : α} {l : List α} (h : a ∈ l) :
    ∃ n, (n, a) ∈ l.enum := by
  obtain ⟨i, h2⟩ := List.get_of_mem h
  refine ⟨i.1, ?_⟩
  rw [List.mem_enum_iff_getElem?, List.getElem?_eq_some]
  exact ⟨i.isLt, by simpa using h2⟩

theorem snd_mem_of_mem_enum {α : Type} {p : Nat × α} {l : List α}
    (h : p ∈ l.enum) : p.2 ∈ l := by
  rw [List.mem_enum_iff_getElem?, List.getElem?_eq_some] at h
  obtain ⟨hl, he⟩ := h
  exact he ▸ List.getElem_mem hl

/-- A round's promise resolves exactly when every loaded question — numbered
or example — has an identifiable source for all three roles. -/
theorem processRound_isVal (env : Env) (sch : Sched) (cfg : Config)
    (rd : RoundSpec) (i : Nat) :
    (processRound env sch cfg rd i).isVal =
      ((rd.questions.filterMap (fun d => (env.qMeta d).map (fun m => (d, m)))).all
          (fun q => imgKeys.all (fun k => sourceFound env (questionImgDir q.1 ++ ['/'] ++ k)))
        && rd.example?.all (fun d => (env.qMeta d).all (fun _ =>
            imgKeys.all (fun k => sourceFound env (questionImgDir d ++ ['/'] ++ k))))) := by
  have hA : ((rd.questions.filterMap (fun d => (env.qMeta d).map (fun m => (d, m)))).enum.map
        (fun p => createQuestionsImages env sch cfg p.2.1
          (mkQData p.2.2 (.num p.1) i rd.title))).all Settle.isVal =
      (rd.questions.filterMap (fun d => (env.qMeta d).map (fun m => (d, m)))).all
        (fun q => imgKeys.all (fun k => sourceFound env (questionImgDir q.1 ++ ['/'] ++ k))) := by
    rw [all_map_general]
    have hfn : (fun p : Nat × (Str × Str) =>
          (createQuestionsImages env sch cfg p.2.1
            (mkQData p.2.2 (.num p.1) i rd.title)).isVal) =
        (fun p : Nat × (Str × Str) =>
          imgKeys.all (fun k => sourceFound env (questionImgDir p.2.1 ++ ['/'] ++ k))) :=
      funext fun p => createQuestionsImages_isVal env sch cfg p.2.1 _
    rw [hfn]
    exact enumFrom_all_snd
      (fun q : Str × Str =>
        imgKeys.all (fun k => sourceFound env (questionImgDir q.1 ++ ['/'] ++ k)))
      (rd.questions.filterMap (fun d => (env.qMeta d).map (fun m => (d, m)))) 0
  have hB : ((rd.example?.bind (fun d => (env.qMeta d).map (fun m =>
        createQuestionsImages env sch cfg d
          (mkQData m (.str ['e']) i rd.title)))).all Settle.isVal) =
      rd.example?.all (fun d => (env.qMeta d).all (fun _ =>
        imgKeys.all (fun k => sourceFound env (questionImgDir d ++ ['/'] ++ k)))) := by
    cases rd.example? with
    | none => rfl
    | some d =>
      cases h : env.qMeta d with
      | none => simp [Option.all, h]
      | some m => simp [Option.all, h, createQuestionsImages_isVal]
  simp only [processRound]
  rw [hA, hB]
  cases hb : ((rd.questions.filterMap (fun d => (env.qMeta d).map (fun m => (d, m)))).all
      (fun q => imgKeys.all (fun k => sourceFound env (questionImgDir q.1 ++ ['/'] ++ k)))
    && rd.example?.all (fun d => (env.qMeta d).all (fun _ =>
        imgKeys.all (fun k => sourceFound env (questionImgDir d ++ ['/'] ++ k))))) with
  | true => simp [Settle.isVal]
  | false => simp [Settle.isVal]

/-- A round promise is only ever pending or fulfilled (never rejected). -/
theorem processRound_cases (env : Env) (sch : Sched) (cfg : Config)
    (rd : RoundSpec) (i : Nat) :
    processRound env sch cfg rd i = .pending ∨
      ∃ r, processRound env sch cfg rd i = .val r := by
  simp only [processRound]
  split
  · exact Or.inr ⟨_, rfl⟩
  · exact Or.inl rfl

/-- The build promise resolves exactly when every round promise resolves. -/
theorem buildApiMaster_isVal (env : Env) (sch : Sched) (cfg : Config)
    (rounds : List RoundSpec) :
    (buildApiMaster env sch cfg rounds).isVal =
      (rounds.enum.map (fun p => processRound env sch cfg p.2 p.1)).all
        Settle.isVal := by
  simp only [buildApiMaster]
  cases hb : (rounds.enum.map (fun p => processRound env sch cfg p.2 p.1)).all
      Settle.isVal with
  | true => simp [Settle.isVal]
  | false => simp [Settle.isVal]

/-- The build promise is only ever pending or fulfilled. -/
theorem buildApiMaster_cases (env : Env) (sch : Sched) (cfg : Config)
    (rounds : List RoundSpec) :
    buildApiMaster env sch cfg rounds = .pending ∨
      ∃ a, buildApiMaster env sch cfg rounds = .val a := by
  simp only [buildApiMaster]
  split
  · exact Or.inr ⟨_, rfl⟩
  · exact Or.inl rfl

theorem Settle.toOption_eq_some {α : Type} {x : Settle α} {a : α} :
    x.toOption = some a ↔ x = .val a := by
  cases x <;> simp [Settle.toOption]

/-- Identities of the settled questions of one numbering run: starting the
counter at `s`, the fulfilled values carry identities `s, s+1, …` in list
order. -/
theorem ids_enumFrom (f : Nat → Str × Str → Settle QData)
    (hf : ∀ n x q', f n x = .val q' → q'.questionId = .num n) :
    ∀ (l : List (Str × Str)) (s : Nat),
      (∀ p ∈ (l.enumFrom s).map (fun p => f p.1 p.2), p.isVal = true) →
      ((((l.enumFrom s).map (fun p => f p.1 p.2)).filterMap Settle.toOption).map
          QData.questionId) = (List.range' s l.length).map JsId.num := by
  intro l
  induction l with
  | nil => intro s _; rfl
  | cons a l ih =>
    intro s h
    have h0 : (f s a).isVal = true := h (f s a) (List.mem_cons_self _ _)
    obtain ⟨q', hq⟩ := Settle.isVal_iff_exists.mp h0
    have htail : ∀ p ∈ (l.enumFrom (s + 1)).map (fun p => f p.1 p.2),
        p.isVal = true := by
      intro p hp
      exact h p (List.mem_cons_of_mem _ hp)
    simp only [List.enumFrom, List.map_cons, List.filterMap_cons, hq,
      Settle.toOption, List.length_cons]
    rw [List.range'_succ]
    simp only [List.map_cons]
    exact congrArg₂ _ (hf s a q' hq) (ih (s + 1) htail)

theorem filterMap_toOption_length {α : Type} :
    ∀ l : List (Settle α), (∀ x ∈ l, x.isVal = true) →
      (l.filterMap Settle.toOption).length = l.length := by
  intro l
  induction l with
  | nil => intro _; rfl
  | cons x l ih =>
    intro h
    obtain ⟨a, rfl⟩ := Settle.isVal_iff_exists.mp (h x (List.mem_cons_self x l))
    simp only [List.filterMap_cons, Settle.toOption, List.length_cons]
    exact congrArg (· + 1) (ih fun y hy => h y (List.mem_cons_of_mem _ hy))

theorem length_filterMap_eq_countP {α β : Type} (f : α → Option β) :
    ∀ l : List α, (l.filterMap f).length = l.countP (fun a => (f a).isSome) := by
  intro l
  induction l with
  | nil => rfl
  | cons a l ih =>
    cases h : f a <;>
      simp [List.filterMap_cons, h, List.countP_cons, ih]

/-- Structure of a resolved round: its identity is its declaration index,
its title is the declared title, the numbered questions carry the identities
`0..n-1` in order where `n` is the number of questions whose metadata
loaded, and a stored example question carries the string identity `'e'`. -/
theorem processRound_val_struct {env : Env} {sch : Sched} {cfg : Config}
    {rd : RoundSpec} {i : Nat} {r : RoundResult}
    (h : processRound env sch cfg rd i = .val r) :
    r.roundId = i ∧ r.title = rd.title ∧
    r.questionsData.map QData.questionId =
      (List.range (rd.questions.filterMap
        (fun d => (env.qMeta d).map (fun m => (d, m)))).length).map JsId.num ∧
    r.questionsData.length = (rd.questions.filterMap
        (fun d => (env.qMeta d).map (fun m => (d, m)))).length ∧
    (∀ q, r.exampleData = some q → q.questionId = .str ['e']) := by
  simp only [processRound] at h
  split at h
  case isTrue hcond =>
    cases h
    rw [Bool.and_eq_true] at hcond
    obtain ⟨hq, hx⟩ := hcond
    have hall := List.all_eq_true.mp hq
    refine ⟨rfl, rfl, ?_, ?_, ?_⟩
    · rw [List.range_eq_range']
      exact ids_enumFrom
        (fun n x => createQuestionsImages env sch cfg x.1
          (mkQData x.2 (.num n) i rd.title))
        (fun n x q' hv => (createQuestionsImages_val_fields hv).1)
        (rd.questions.filterMap (fun d => (env.qMeta d).map (fun m => (d, m))))
        0 hall
    · have hl := filterMap_toOption_length _ hall
      simp only [hl, List.length_map]
      rw [List.enum_length]
    · intro q hsome
      cases hex : rd.example? with
      | none => rw [hex] at hsome; simp [Option.bind] at hsome
      | some d =>
        cases hm : env.qMeta d with
        | none => rw [hex] at hsome; simp [Option.bind, hm] at hsome
        | some m =>
          rw [hex] at hsome
          simp only [Option.bind, hm, Option.map] at hsome
          have hv := Settle.toOption_eq_some.mp hsome
          exact (createQuestionsImages_val_fields hv).1
  case isFalse => cases h

theorem isPrefixOf_append_self : ∀ (p t : Str), p.isPrefixOf (p ++ t) = true := by
  intro p
  induction p with
  | nil => intro t; simp [List.isPrefixOf]
  | cons a p ih => intro t; simp [List.isPrefixOf, ih]

theorem firstOcc_append_self {sep : Str} (hsep : sep ≠ []) (t : Str) :
    firstOcc sep (sep ++ t) = some 0 := by
  cases sep with
  | nil => exact absurd rfl hsep
  | cons a s' =>
    show firstOcc (a :: s') ((a :: s') ++ t) = some 0
    have hp : (a :: s').isPrefixOf (a :: s'.append t) = true :=
      isPrefixOf_append_self (a :: s') t
    simp only [List.cons_append, firstOcc]
    rw [if_pos hp]

theorem splitGo_of_none {sep s : Str} (h : firstOcc sep s = none) :
    ∀ fuel, splitGo sep fuel s = [s] := by
  intro fuel
  cases fuel with
  | zero => rfl
  | succ f => simp [splitGo, h]

theorem splitOnL_of_none {sep s : Str} (h : firstOcc sep s = none) :
    splitOnL sep s = [s] := by
  unfold splitOnL
  split
  · rfl
  · exact splitGo_of_none h _

theorem firstOcc_eq_none_of_not_contained {sep s : Str}
    (h : containsSub sep s = false) : firstOcc sep s = none := by
  unfold containsSub at h
  cases hx : firstOcc sep s with
  | none => rfl
  | some i => rw [hx] at h; simp at h

/-- Splitting `sep ++ rest` on `sep`, when `sep` does not occur in `rest`,
yields the empty piece before the occurrence and `rest` after it. -/
theorem splitOnL_strip {sep rest : Str} (hsep : sep ≠ [])
    (h : firstOcc sep rest = none) :
    splitOnL sep (sep ++ rest) = [[], rest] := by
  have hocc := firstOcc_append_self hsep rest
  have hpos : 0 < sep.length := List.length_pos.mpr hsep
  have hlen : (sep ++ rest).length = ((sep ++ rest).length - 1) + 1 := by
    simp only [List.length_append]
    omega
  unfold splitOnL
  rw [if_neg hsep, hlen]
  simp only [splitGo, hocc]
  rw [List.take_zero, Nat.zero_add, List.drop_left]
  rw [splitGo_of_none h]

/-- When the output-directory prefix does not occur in the generated name,
the name is returned unchanged. -/
theorem getApiFilePath_of_not_contained {cfg : Config} {name : Str}
    (h : containsSub cfg.apiOutputDir name = false) :
    getApiFilePath cfg name = name := by
  have hnone := firstOcc_eq_none_of_not_contained h
  simp only [getApiFilePath]
  rw [splitOnL_of_none hnone]
  rfl

/-- When the generated name is the output directory followed by `rest` (with
no further occurrence of the output directory), the result is the API path
prefix followed by `rest`. -/
theorem getApiFilePath_strip {cfg : Config} {rest : Str}
    (hsep : cfg.apiOutputDir ≠ [])
    (h : containsSub cfg.apiOutputDir rest = false) :
    getApiFilePath cfg (cfg.apiOutputDir ++ rest) = cfg.apiPre ++ rest := by
  have hnone := firstOcc_eq_none_of_not_contained h
  simp only [getApiFilePath]
  rw [splitOnL_strip hsep hnone]
  rfl

/-- The width keys of a role's `srcs` map are exactly the configured widths
whose resize call succeeded, in configuration order. -/
theorem srcs_keys_filter (env : Env) (cfg : Config) (fd : ImgFileData)
    (outputDir : Str) (rid : Nat) (qid : JsId) :
    ∀ sizes : List Nat,
      (sizes.filterMap (fun size =>
        match createImageVariant env cfg fd outputDir size rid qid with
        | .val p => some (size, p)
        | _ => none)).map Prod.fst
      = sizes.filter (fun size =>
          (env.resize (env.readFile fd.path) size cfg.imgFormat).isSome) := by
  intro sizes
  induction sizes with
  | nil => rfl
  | cons s sizes ih =>
    simp only [List.filterMap_cons, List.filter_cons]
    cases hr : env.resize (env.readFile fd.path) s cfg.imgFormat with
    | none => simpa [createImageVariant, hr] using ih
    | some out => simpa [createImageVariant, hr] using ih

/-- One limiter step preserves the limiter invariant. -/
theorem limStep_inv {s : LimSt} (h : LimInv s) (e : LimEv) :
    LimInv (limStep s e) := by
  obtain ⟨h1, h2, h3⟩ := h
  cases e with
  | submit t =>
    by_cases hc : s.running < s.cap
    · have hq : s.queue = [] := by
        by_contra hne
        exact absurd (h2 hne) (Nat.ne_of_lt hc)
      simp only [limStep, if_pos hc]
      refine ⟨hc, ?_, ?_⟩
      · intro hqne
        exact absurd hq hqne
      · rw [hq] at h3
        simp only [hq]
        simp only [List.append_nil] at h3 ⊢
        rw [h3]
    · simp only [limStep, if_neg hc]
      refine ⟨h1, fun _ => ?_, ?_⟩
      · show s.running = s.cap
        omega
      · show s.started ++ (s.queue ++ [t]) = s.submitted ++ [t]
        rw [← List.append_assoc, h3]
  | finish =>
    cases hqe : s.queue with
    | nil =>
      simp only [limStep, hqe]
      refine ⟨?_, ?_, ?_⟩
      · show s.running - 1 ≤ s.cap
        omega
      · intro hqne
        exact absurd rfl hqne
      · show s.started ++ [] = s.submitted
        rw [hqe] at h3
        exact h3
    | cons t ts =>
      simp only [limStep, hqe]
      refine ⟨h1, fun _ => h2 (by simp [hqe]), ?_⟩
      rw [List.append_assoc]
      simpa using hqe ▸ h3

/-- The initial limiter state satisfies the invariant. -/
theorem limInv_init (cap : Nat) : LimInv (limInit cap) :=
  ⟨Nat.zero_le _, fun h => absurd rfl h, rfl⟩

theorem limFold_inv : ∀ (evs : List LimEv) (s : LimSt),
    LimInv s → LimInv (evs.foldl limStep s) := by
  intro evs
  induction evs with
  | nil => intro s h; exact h
  | cons e evs ih => intro s h; exact ih _ (limStep_inv h e)

/-- Every reachable limiter state satisfies the invariant. -/
theorem limRun_inv (cap : Nat) (evs : List LimEv) : LimInv (limRun cap evs) :=
  limFold_inv evs _ (limInv_init cap)

theorem limStep_cap (s : LimSt) (e : LimEv) : (limStep s e).cap = s.cap := by
  cases e with
  | submit t => by_cases hc : s.running < s.cap <;> simp [limStep, hc]
  | finish => cases hq : s.queue <;> simp [limStep, hq]

theorem limFold_cap : ∀ (evs : List LimEv) (s : LimSt),
    (evs.foldl limStep s).cap = s.cap := by
  intro evs
  induction evs with
  | nil => intro s; rfl
  | cons e evs ih => intro s; rw [List.foldl_cons, ih, limStep_cap]

/-- The pair of class limiters is the product of the two projected runs:
each class's state is driven only by its own class's events. -/
theorem twoFold_proj : ∀ (evs : List ClassEv) (a b : LimSt),
    (evs.foldl twoStep (a, b)).1 =
      (evs.filterMap (fun e => match e with
        | .identCall x => some x
        | .resizeCall _ => none)).foldl limStep a ∧
    (evs.foldl twoStep (a, b)).2 =
      (evs.filterMap (fun e => match e with
        | .identCall _ => none
        | .resizeCall x => some x)).foldl limStep b := by
  intro evs
  induction evs with
  | nil => intro a b; exact ⟨rfl, rfl⟩
  | cons e evs ih =>
    intro a b
    cases e with
    | identCall x => simpa [twoStep, List.filterMap_cons] using ih (limStep a x) b
    | resizeCall x => simpa [twoStep, List.filterMap_cons] using ih a (limStep b x)

/-- Under `envOK` every round's promise resolves. -/
theorem processRound_isVal_of_envOK {env : Env} (sch : Sched) (cfg : Config)
    {rounds : List RoundSpec} {rd : RoundSpec}
    (hok : envOK env rounds) (hrd : rd ∈ rounds) (i : Nat) :
    (processRound env sch cfg rd i).isVal = true := by
  rw [processRound_isVal, Bool.and_eq_true]
  constructor
  · apply List.all_eq_true.mpr
    intro q hq
    obtain ⟨dq, hdq, hmap⟩ := List.mem_filterMap.mp hq
    rw [Option.map_eq_some'] at hmap
    obtain ⟨m, hm, rfl⟩ := hmap
    apply List.all_eq_true.mpr
    intro k hk
    exact hok rd hrd dq (List.mem_append.mpr (Or.inl hdq)) (by rw [hm]; rfl) k hk
  · cases hx : rd.example? with
    | none => rfl
    | some dx =>
      cases hm : env.qMeta dx with
      | none => simp [Option.all, hm]
      | some m =>
        simp only [Option.all, hm]
        apply List.all_eq_true.mpr
        intro k hk
        refine hok rd hrd dx (List.mem_append.mpr (Or.inr ?_)) (by rw [hm]; rfl) k hk
        rw [hx]
        simp [Option.toList]

/-- Under `envOK` every round promise in the fan-out resolves. -/
theorem allRounds_isVal_of_envOK (env : Env) (sch : Sched) (cfg : Config)
    (rounds : List RoundSpec) (hok : envOK env rounds) :
    (rounds.enum.map (fun p => processRound env sch cfg p.2 p.1)).all
      Settle.isVal = true := by
  rw [all_map_general]
  apply List.all_eq_true.mpr
  intro p hp
  exact processRound_isVal_of_envOK sch cfg hok (snd_mem_of_mem_enum hp) p.1

theorem filterMap_settled_of_all {l : List (Nat × Settle RoundResult)}
    (h : ∀ p ∈ l, p.2.isVal = true) :
    l.filterMap (fun p => if p.2.isVal then some (BEv.roundSettled p.1) else none)
      = l.map (fun p => BEv.roundSettled p.1) := by
  induction l with
  | nil => rfl
  | cons a l ih =>
    simp [List.filterMap_cons, h a (List.mem_cons_self a l),
      ih (fun y hy => h y (List.mem_cons_of_mem _ hy))]

/-- When every round settles, the trace is all rounds' settlements in
declaration order followed by the single index write. -/
theorem buildTrace_allVal (env : Env) (sch : Sched) (cfg : Config)
    (rounds : List RoundSpec)
    (hall : (rounds.enum.map (fun p => processRound env sch cfg p.2 p.1)).all
      Settle.isVal = true) :
    buildTrace env sch cfg rounds =
      (List.range rounds.length).map BEv.roundSettled ++ [BEv.indexWritten] := by
  simp only [buildTrace]
  rw [if_pos hall]
  have hmem : ∀ p ∈ (rounds.enum.map
      (fun p => processRound env sch cfg p.2 p.1)).enum, p.2.isVal = true := by
    intro p hp
    exact List.all_eq_true.mp hall p.2 (snd_mem_of_mem_enum hp)
  rw [filterMap_settled_of_all hmem]
  congr 1
  have hlen : (rounds.enum.map
      (fun p => processRound env sch cfg p.2 p.1)).length = rounds.length := by
    rw [List.length_map, List.enum_length]
  rw [← hlen,
    ← List.enum_map_fst (rounds.enum.map fun p => processRound env sch cfg p.2 p.1),
    List.map_map]
  rfl

/-- The resolved srcs keys of a role are the widths whose resize call
succeeded. -/
theorem createImageVariants_val_srcs {env : Env} {sch : Sched} {cfg : Config}
    {imgPath distDir imgName : Str} {rid : Nat} {qid : JsId}
    {fd : ImgFileData} {v : VariantsData}
    (hfd : resolveSource env sch imgPath imgName = some fd)
    (hv : createImageVariants env sch cfg imgPath distDir imgName rid qid = .val v) :
    v.srcs.map Prod.fst = cfg.imgSizes.filter
      (fun s => (env.resize (env.readFile fd.path) s cfg.imgFormat).isSome) := by
  simp only [createImageVariants, hfd] at hv
  cases hv
  exact srcs_keys_filter env cfg fd _ rid qid cfg.imgSizes

/-! ## Claim theorems -/

/-- Claim C1, counterexample.  The claim says no child-task failure below
the top level can prevent the build from reaching its terminal state.  In
the run where the single question's source images exist in neither format
(`envNoImg`), the failed identification probes make the `createImageVariants`
continuation throw, its deferred never settles, and the top-level promise
stays pending forever: the terminal state is never reached and no completion
signal is emitted. -/
theorem c1_counterexample :
    buildApiMaster envNoImg schD cfgD roundsOneQ = Settle.pending := by decide

/-- Claim C1, amended: the failure of a resize task or of a question's
metadata load never prevents the build from reaching its terminal state —
whenever every processed role has an identifiable source (`envOK`), the
top-level settle-all resolves regardless of how many resize calls fail and
how many question metadata loads fail.  (The one exception, forced by the
counterexample, is a role whose source image exists in neither format: that
role's promise never settles and the build hangs.) -/
theorem c1_settles_without_missing_sources (env : Env) (sch : Sched)
    (cfg : Config) (rounds : List RoundSpec) (hok : envOK env rounds) :
    (buildApiMaster env sch cfg rounds).isVal = true := by
  rw [buildApiMaster_isVal]
  exact allRounds_isVal_of_envOK env sch cfg rounds hok

/-- Claim C1 witness: in a run where every resize call fails (a leaf failure
under every role) but sources are identifiable, the build still resolves. -/
theorem c1_witness :
    envOK envAllFailResize roundsOneQ ∧
      (buildApiMaster envAllFailResize schD cfgD roundsOneQ).isVal = true := by
  have hok : envOK envAllFailResize roundsOneQ := by unfold envOK; decide
  exact ⟨hok,
    c1_settles_without_missing_sources envAllFailResize schD cfgD roundsOneQ hok⟩

/-- Claim C2: for a processed question (one whose metadata loaded) with a
role for which neither accepted format yields identification metadata, the
run never completes normally: the top-level promise never settles, so the
success signal is never emitted and the index is never written.  (The thrown
missing-source error escapes the role's settled-all continuation, leaving
the role's deferred pending forever, which propagates up as a hang.) -/
theorem c2_missing_source_blocks_run {env : Env} (sch : Sched) (cfg : Config)
    {rounds : List RoundSpec} {rd : RoundSpec} {qdir m : Str} {k : Str}
    (hrd : rd ∈ rounds) (hq : qdir ∈ rd.questions)
    (hm : env.qMeta qdir = some m) (hk : k ∈ imgKeys)
    (hnf : sourceFound env (questionImgDir qdir ++ ['/'] ++ k) = false) :
    buildApiMaster env sch cfg rounds = Settle.pending ∧
      BEv.indexWritten ∉ buildTrace env sch cfg rounds := by
  obtain ⟨n, hmem⟩ := exists_enum_of_mem hrd
  have hpr : (processRound env sch cfg rd n).isVal = false := by
    rw [processRound_isVal]
    have hmemL : (qdir, m) ∈ rd.questions.filterMap
        (fun d => (env.qMeta d).map (fun m => (d, m))) :=
      List.mem_filterMap.mpr ⟨qdir, hq, by rw [hm]; rfl⟩
    have hfalse : (imgKeys.all
        (fun k' => sourceFound env (questionImgDir qdir ++ ['/'] ++ k'))) = false := by
      cases hb : imgKeys.all
          (fun k' => sourceFound env (questionImgDir qdir ++ ['/'] ++ k')) with
      | false => rfl
      | true =>
        have := List.all_eq_true.mp hb k hk
        rw [hnf] at this
        exact absurd this (by simp)
    have hAfalse : ((rd.questions.filterMap
        (fun d => (env.qMeta d).map (fun m => (d, m)))).all
          (fun q => imgKeys.all
            (fun k' => sourceFound env (questionImgDir q.1 ++ ['/'] ++ k')))) = false := by
      cases hb : ((rd.questions.filterMap
          (fun d => (env.qMeta d).map (fun m => (d, m)))).all
            (fun q => imgKeys.all
              (fun k' => sourceFound env (questionImgDir q.1 ++ ['/'] ++ k')))) with
      | false => rfl
      | true =>
        have h' : (imgKeys.all
            (fun k' => sourceFound env (questionImgDir qdir ++ ['/'] ++ k'))) = true :=
          List.all_eq_true.mp hb (qdir, m) hmemL
        rw [hfalse] at h'
        exact absurd h' (by simp)
    rw [hAfalse]
    rfl
  have hall : ((rounds.enum.map
      (fun p => processRound env sch cfg p.2 p.1)).all Settle.isVal) = false := by
    cases hb : ((rounds.enum.map
        (fun p => processRound env sch cfg p.2 p.1)).all Settle.isVal) with
    | false => rfl
    | true =>
      have hmm : processRound env sch cfg rd n ∈
          rounds.enum.map (fun p => processRound env sch cfg p.2 p.1) :=
        List.mem_map.mpr ⟨(n, rd), hmem, rfl⟩
      have := List.all_eq_true.mp hb _ hmm
      rw [hpr] at this
      exact absurd this (by simp)
  constructor
  · rcases buildApiMaster_cases env sch cfg rounds with hp | ⟨a, ha⟩
    · exact hp
    · have hiv := buildApiMaster_isVal env sch cfg rounds
      rw [ha, hall] at hiv
      simp [Settle.isVal] at hiv
  · intro hmem2
    simp only [buildTrace] at hmem2
    rw [List.mem_append] at hmem2
    rcases hmem2 with h1 | h2
    · obtain ⟨p, _, hev⟩ := List.mem_filterMap.mp h1
      split at hev <;> simp at hev
    · rw [hall] at h2
      simp at h2

/-- Claim C2 witness: the concrete run with no identifiable source image for
its single question never completes and never writes the index. -/
theorem c2_witness :
    buildApiMaster envNoImg schD cfgD roundsOneQ = Settle.pending ∧
      BEv.indexWritten ∉ buildTrace envNoImg schD cfgD roundsOneQ :=
  @c2_missing_source_blocks_run envNoImg schD cfgD roundsOneQ
    ⟨['t'], [['q', '1']], none⟩ ['q', '1'] ['m'] ['a'] (by decide) (by decide)
    (by decide) (by decide) (by decide)

/-- Claim C3, counterexample.  The claim says the index file is written
exactly once in every run.  In the concrete run whose single question has no
identifiable source image, the round promise never settles, the
`Q.allSettled(roundPromises)` continuation never fires, and the index is
written zero times, not once. -/
theorem c3_counterexample :
    (buildTrace envNoImg schD cfgD roundsOneQ).count BEv.indexWritten = 0 := by
  decide

/-- Claim C3, amended: the index file is written at most once per run; it is
written (exactly once, as the final event, after every round's promise has
settled) precisely when all round promises settle, and a partial index is
never written before all rounds settle — in a run where some round never
settles it is not written at all. -/
theorem c3_index_written_once (env : Env) (sch : Sched) (cfg : Config)
    (rounds : List RoundSpec) :
    (buildTrace env sch cfg rounds).count BEv.indexWritten ≤ 1 ∧
    (BEv.indexWritten ∈ buildTrace env sch cfg rounds →
      buildTrace env sch cfg rounds =
        (List.range rounds.length).map BEv.roundSettled ++ [BEv.indexWritten]) := by
  constructor
  · simp only [buildTrace]
    rw [List.count_append]
    have h1 : (((rounds.enum.map (fun p => processRound env sch cfg p.2 p.1)).enum.filterMap
        (fun p => if p.2.isVal then some (BEv.roundSettled p.1) else none)).count
          BEv.indexWritten) = 0 := by
      rw [List.count_eq_zero]
      intro hmem
      obtain ⟨p, _, hev⟩ := List.mem_filterMap.mp hmem
      split at hev <;> simp at hev
    rw [h1]
    split <;> simp
  · intro hmem
    have hall : (rounds.enum.map
        (fun p => processRound env sch cfg p.2 p.1)).all Settle.isVal = true := by
      by_contra hne
      have hfalse : (rounds.enum.map
          (fun p => processRound env sch cfg p.2 p.1)).all Settle.isVal = false := by
        cases hb : (rounds.enum.map
            (fun p => processRound env sch cfg p.2 p.1)).all Settle.isVal with
        | false => rfl
        | true => exact absurd hb hne
      simp only [buildTrace] at hmem
      rw [List.mem_append] at hmem
      rcases hmem with h1 | h2
      · obtain ⟨p, _, hev⟩ := List.mem_filterMap.mp h1
        split at hev <;> simp at hev
      · rw [hfalse] at h2
        simp at h2
    exact buildTrace_allVal env sch cfg rounds hall

/-- Claim C3 witness: in a run where everything settles, the trace is the
round settlement followed by the one index write. -/
theorem c3_witness :
    buildTrace envAllOK schD cfgD roundsOneQ =
      (List.range roundsOneQ.length).map BEv.roundSettled ++ [BEv.indexWritten] :=
  (c3_index_written_once envAllOK schD cfgD roundsOneQ).2 (by decide)

/-- Claim C4, counterexample.  The claim says an example question's identity
is the fixed sentinel `"example"`.  In the concrete round with an example
question, the identity stored on the example result is the string `'e'`
(line 165 of the source: `questionDataTemp.questionId = 'e'`), which is not
the string `"example"`. -/
theorem c4_counterexample :
    ((processRound envAllFailResize schD cfgW rspecTwoQEx 0).toOption.bind
        RoundResult.exampleData).map QData.questionId = some (JsId.str ['e']) ∧
      JsId.str ['e'] ≠ JsId.str ['e', 'x', 'a', 'm', 'p', 'l', 'e'] := by
  decide

/-- Claim C4, amended: in every resolved round the non-example questionId
values form the unique contiguous zero-based sequence 0..n-1 in declared
order, the example question's identity is the fixed non-numeric sentinel
`'e'` (not `"example"`), assigned outside the sequence counter so it never
consumes a numeric slot, and the example result is stored in the separate
`exampleData` field, never among the numbered questions. -/
theorem c4_question_ids {env : Env} {sch : Sched} {cfg : Config}
    {rd : RoundSpec} {i : Nat} {r : RoundResult}
    (h : processRound env sch cfg rd i = .val r) :
    r.questionsData.map QData.questionId =
        (List.range r.questionsData.length).map JsId.num ∧
      (∀ q, r.exampleData = some q → q.questionId = .str ['e']) ∧
      (∀ q ∈ r.questionsData, q.questionId ≠ .str ['e']) := by
  obtain ⟨_, _, hids, hlen, hex⟩ := processRound_val_struct h
  refine ⟨by rw [hlen]; exact hids, hex, ?_⟩
  intro q hq
  have hmem : q.questionId ∈ r.questionsData.map QData.questionId :=
    List.mem_map.mpr ⟨q, hq, rfl⟩
  rw [hids] at hmem
  obtain ⟨n, _, hn⟩ := List.mem_map.mp hmem
  rw [← hn]
  intro hcontra
  exact JsId.noConfusion hcontra

/-- Claim C4 witness: the round with two questions and an example resolves
to identities 0, 1 and the example sentinel `'e'`. -/
theorem c4_witness :
    processRound envAllFailResize schD cfgW rspecTwoQEx 0 = .val rW4 ∧
      (rW4.questionsData.map QData.questionId =
          (List.range rW4.questionsData.length).map JsId.num ∧
        (∀ q, rW4.exampleData = some q → q.questionId = .str ['e']) ∧
        (∀ q ∈ rW4.questionsData, q.questionId ≠ .str ['e'])) := by
  have h : processRound envAllFailResize schD cfgW rspecTwoQEx 0 = .val rW4 := by
    decide
  exact ⟨h, c4_question_ids h⟩

theorem countP_congr_general {α : Type} (p q : α → Bool) (h : ∀ a, p a = q a) :
    ∀ l : List α, l.countP p = l.countP q := by
  intro l
  induction l with
  | nil => rfl
  | cons a l ih => simp [List.countP_cons, h a, ih]

/-- Claim C5: a question reference whose metadata is absent or unparseable
is a not-found result, not a run failure — the question is omitted from the
round's output, no questionId is consumed for it (the identities of the
loaded questions are still the contiguous sequence 0..n-1 where n counts
only loadable questions), and, provided every processed question's images
are identifiable, the build completes and the index write occurs. -/
theorem c5_missing_meta_skipped {env : Env} (sch : Sched) (cfg : Config)
    {rounds : List RoundSpec} {i : Nat} {rd : RoundSpec} {qdir : Str}
    (hidx : rounds[i]? = some rd) (hq : qdir ∈ rd.questions)
    (hm : env.qMeta qdir = none) (hok : envOK env rounds) :
    BEv.indexWritten ∈ buildTrace env sch cfg rounds ∧
    ∃ r, processRound env sch cfg rd i = .val r ∧
      r.questionsData.length =
        rd.questions.countP (fun d => (env.qMeta d).isSome) ∧
      r.questionsData.length < rd.questions.length ∧
      r.questionsData.map QData.questionId =
        (List.range r.questionsData.length).map JsId.num := by
  have hrd : rd ∈ rounds := by
    rw [List.getElem?_eq_some] at hidx
    obtain ⟨hlt, heq⟩ := hidx
    exact heq ▸ List.getElem_mem hlt
  constructor
  · rw [buildTrace_allVal env sch cfg rounds
      (allRounds_isVal_of_envOK env sch cfg rounds hok)]
    simp
  · have hv := processRound_isVal_of_envOK sch cfg hok hrd i
    obtain ⟨r, hr⟩ := Settle.isVal_iff_exists.mp hv
    obtain ⟨_, _, hids, hlen, _⟩ := processRound_val_struct hr
    have hcount : (rd.questions.filterMap
        (fun d => (env.qMeta d).map (fun m => (d, m)))).length =
        rd.questions.countP (fun d => (env.qMeta d).isSome) := by
      rw [length_filterMap_eq_countP]
      exact countP_congr_general _ _ (fun d => by cases env.qMeta d <;> rfl)
        rd.questions
    have hlt : rd.questions.countP (fun d => (env.qMeta d).isSome) <
        rd.questions.length := by
      rw [List.countP_eq_length_filter]
      refine List.length_filter_lt_length_iff_exists.mpr ⟨qdir, hq, ?_⟩
      rw [hm]
      simp
    refine ⟨r, hr, ?_, ?_, ?_⟩
    · rw [hlen, hcount]
    · rw [hlen, hcount]
      exact hlt
    · rw [hlen]
      exact hids

/-- Claim C5 witness: with `q2`'s metadata unloadable, the build still
completes and writes the index. -/
theorem c5_witness :
    BEv.indexWritten ∈ buildTrace envOneBadMeta schD cfgW roundsTwoQ :=
  (@c5_missing_meta_skipped envOneBadMeta schD cfgW roundsTwoQ 0 rdTwoQ
    ['q', '2'] (by decide) (by decide) (by decide)
    (by unfold envOK; decide)).1

/-- Claim C6: for a successfully identified role, the width keys of its
output `srcs` map are exactly the configured widths whose resize succeeded,
in configuration order — hence a subset of the configured target-width list,
equal to it when every resize for the role succeeds; a failing width removes
only its own key, every other succeeding width stays present. -/
theorem c6_width_keys {env : Env} {sch : Sched} (cfg : Config)
    {imgPath imgName : Str} (distDir : Str) (rid : Nat) (qid : JsId)
    {fd : ImgFileData}
    (hfd : resolveSource env sch imgPath imgName = some fd) :
    ∃ v, createImageVariants env sch cfg imgPath distDir imgName rid qid = .val v ∧
      v.srcs.map Prod.fst = cfg.imgSizes.filter
        (fun s => (env.resize (env.readFile fd.path) s cfg.imgFormat).isSome) ∧
      (∀ s ∈ v.srcs.map Prod.fst, s ∈ cfg.imgSizes) ∧
      ((∀ s ∈ cfg.imgSizes,
          (env.resize (env.readFile fd.path) s cfg.imgFormat).isSome = true) →
        v.srcs.map Prod.fst = cfg.imgSizes) ∧
      (∀ s ∈ cfg.imgSizes,
        (env.resize (env.readFile fd.path) s cfg.imgFormat).isSome = true →
          s ∈ v.srcs.map Prod.fst) := by
  have hv : (createImageVariants env sch cfg imgPath distDir imgName rid
      qid).isVal = true := by
    rw [createImageVariants_isVal, ← resolveSource_isSome env sch imgPath imgName,
      hfd]
    rfl
  obtain ⟨v, hveq⟩ := Settle.isVal_iff_exists.mp hv
  have hkeys := createImageVariants_val_srcs hfd hveq
  refine ⟨v, hveq, hkeys, ?_, ?_, ?_⟩
  · intro s hs
    rw [hkeys] at hs
    exact (List.mem_filter.mp hs).1
  · intro hall
    rw [hkeys]
    exact List.filter_eq_self.mpr hall
  · intro s hs hsome
    rw [hkeys]
    exact List.mem_filter.mpr ⟨hs, hsome⟩

/-- Claim C6 witness: with the 640 resize failing and 320/960 succeeding,
the role's srcs keys are exactly 320 and 960. -/
theorem c6_witness :
    ((createImageVariants envOneFail640 schD cfgD ['p'] ['d'] ['a'] 0
        (JsId.num 0)).toOption.map (fun v => v.srcs.map Prod.fst)) =
      some [320, 960] := by
  obtain ⟨v, hveq, hkeys, _, _, _⟩ :=
    @c6_width_keys envOneFail640 schD cfgD ['p'] ['a'] ['d'] 0 (JsId.num 0)
      ⟨⟨1, 1⟩, probePath ['p'] .png, ['a']⟩ (by decide)
  rw [hveq]
  simp only [Settle.toOption, Option.map]
  rw [hkeys]
  decide

/-- Claim C7, counterexample.  The claim says the chosen format (and hence
the metadata and aspect ratio) is deterministic across runs on identical
inputs.  With identical inputs (`env7`: both formats exist with different
dimensions), two runs that differ only in which probe callback completes
last resolve different sources and report different aspect ratios — the
choice depends on probe timing, not on the inputs. -/
theorem c7_counterexample :
    resolveSource env7 schD ['p'] ['a'] ≠ resolveSource env7 schJ ['p'] ['a'] ∧
      createImageVariants env7 schD cfgW ['p'] ['d'] ['a'] 0 (JsId.num 0) ≠
        createImageVariants env7 schJ cfgW ['p'] ['d'] ['a'] 0 (JsId.num 0) := by
  decide

/-- Claim C7, amended: the resolved source is deterministic (independent of
probe completion order) exactly when at most one of the two formats yields
identification metadata; when both yield metadata, the probe that completes
last wins, so the choice is timing-dependent. -/
theorem c7_deterministic_single_format (env : Env) (sch₁ sch₂ : Sched)
    (cfg : Config) (imgPath distDir imgName : Str) (rid : Nat) (qid : JsId)
    (h : env.identify (probePath imgPath .png) = none ∨
         env.identify (probePath imgPath .jpg) = none) :
    resolveSource env sch₁ imgPath imgName =
        resolveSource env sch₂ imgPath imgName ∧
      createImageVariants env sch₁ cfg imgPath distDir imgName rid qid =
        createImageVariants env sch₂ cfg imgPath distDir imgName rid qid := by
  have key : resolveSource env sch₁ imgPath imgName =
      resolveSource env sch₂ imgPath imgName := by
    unfold resolveSource
    rcases h with h | h
    · rw [h]
      cases env.identify (probePath imgPath .jpg) <;> rfl
    · rw [h]
      cases env.identify (probePath imgPath .png) <;> rfl
  refine ⟨key, ?_⟩
  unfold createImageVariants
  rw [key]

/-- Claim C7 witness: with only the png present, the resolution is the same
under both probe orders. -/
theorem c7_witness :
    resolveSource envOnlyPng schD ['p'] ['a'] =
      resolveSource envOnlyPng schJ ['p'] ['a'] :=
  (c7_deterministic_single_format envOnlyPng schD schJ cfgW ['p'] ['d'] ['a']
    0 (JsId.num 0) (Or.inr (by decide))).1

theorem containsSub_nil (s : Str) : containsSub [] s = true := by
  cases s <;> simp [containsSub, firstOcc, List.isPrefixOf]

/-- Claim C8: a successfully generated variant's returned API path is the
generated file name with the configured output-directory prefix stripped and
the API path prefix prepended (when the name is the output directory
followed by a remainder not containing it again), and the full generated
name unchanged when the name does not contain the output directory — no
error in either case. -/
theorem c8_api_path {env : Env} (cfg : Config) (srcImg : ImgFileData)
    (outputDir : Str) (size rid : Nat) (qid : JsId) {p : Str}
    (h : createImageVariant env cfg srcImg outputDir size rid qid = .val p) :
    (containsSub cfg.apiOutputDir (outName cfg outputDir srcImg size rid qid) =
        false → p = outName cfg outputDir srcImg size rid qid) ∧
    (∀ rest, outName cfg outputDir srcImg size rid qid =
        cfg.apiOutputDir ++ rest →
      containsSub cfg.apiOutputDir rest = false →
      p = cfg.apiPre ++ rest) := by
  have hp : p = getApiFilePath cfg (outName cfg outputDir srcImg size rid qid) := by
    simp only [createImageVariant] at h
    split at h
    · exact Settle.noConfusion h
    · exact (Settle.val.inj h).symm
  constructor
  · intro hnc
    rw [hp]
    exact getApiFilePath_of_not_contained hnc
  · intro rest heq hnc
    have hne : cfg.apiOutputDir ≠ [] := by
      intro hnil
      rw [hnil, containsSub_nil] at hnc
      simp at hnc
    rw [hp, heq]
    exact getApiFilePath_strip hne hnc

/-- Claim C8 witness: with the default configuration, the 320-width variant
of role `a` in round 0, question 0 comes back as the API path
`/x/a/r0q0.a.320.jpg` — the generated name with `./dist/api/` stripped and
`/` prepended. -/
theorem c8_witness :
    createImageVariant envAllOK cfgD srcW8 dirW8 320 0 (JsId.num 0) =
      .val (cfgD.apiPre ++ restW8) := by
  have h : createImageVariant envAllOK cfgD srcW8 dirW8 320 0 (JsId.num 0) =
      .val (getApiFilePath cfgD (outName cfgD dirW8 srcW8 320 0 (JsId.num 0))) := by
    decide
  have h2 := (c8_api_path cfgD srcW8 dirW8 320 0 (JsId.num 0) h).2 restW8
    (by decide) (by decide)
  rw [h, h2]

/-- Claim C9 (the `ThreadManager` itself is modelled from the spec, its
source not being under `src/`): each of the two resource classes has an
independent limiter with its own capacity; under any event sequence the
in-flight count of each class never exceeds its capacity, tasks begin
running in FIFO submission order (the begun tasks followed by the waiting
queue are exactly the submissions in order, so the begun list is always a
prefix of the submission order), and an event of one class never changes
the other class's limiter state. -/
theorem c9_limiter_bound_fifo (capI capR : Nat) (evs : List ClassEv) :
    (twoRun capI capR evs).1.running ≤ capI ∧
    (twoRun capI capR evs).2.running ≤ capR ∧
    (twoRun capI capR evs).1.started ++ (twoRun capI capR evs).1.queue =
      (twoRun capI capR evs).1.submitted ∧
    (twoRun capI capR evs).2.started ++ (twoRun capI capR evs).2.queue =
      (twoRun capI capR evs).2.submitted ∧
    (∀ e, (twoRun capI capR (evs ++ [ClassEv.identCall e])).2 =
      (twoRun capI capR evs).2) ∧
    (∀ e, (twoRun capI capR (evs ++ [ClassEv.resizeCall e])).1 =
      (twoRun capI capR evs).1) := by
  obtain ⟨hf, hs⟩ := twoFold_proj evs (limInit capI) (limInit capR)
  have hinvI := limRun_inv capI (evs.filterMap (fun e => match e with
    | .identCall x => some x | .resizeCall _ => none))
  have hinvR := limRun_inv capR (evs.filterMap (fun e => match e with
    | .identCall _ => none | .resizeCall x => some x))
  have hcapI : (limRun capI (evs.filterMap (fun e => match e with
      | .identCall x => some x | .resizeCall _ => none))).cap = capI := by
    unfold limRun
    rw [limFold_cap]
    rfl
  have hcapR : (limRun capR (evs.filterMap (fun e => match e with
      | .identCall _ => none | .resizeCall x => some x))).cap = capR := by
    unfold limRun
    rw [limFold_cap]
    rfl
  refine ⟨?_, ?_, ?_, ?_, ?_, ?_⟩
  · show (evs.foldl twoStep (limInit capI, limInit capR)).1.running ≤ capI
    rw [hf]
    have hr := hinvI.1
    rw [hcapI] at hr
    exact hr
  · show (evs.foldl twoStep (limInit capI, limInit capR)).2.running ≤ capR
    rw [hs]
    have hr := hinvR.1
    rw [hcapR] at hr
    exact hr
  · show (evs.foldl twoStep (limInit capI, limInit capR)).1.started ++
      (evs.foldl twoStep (limInit capI, limInit capR)).1.queue =
      (evs.foldl twoStep (limInit capI, limInit capR)).1.submitted
    rw [hf]
    exact hinvI.2.2
  · show (evs.foldl twoStep (limInit capI, limInit capR)).2.started ++
      (evs.foldl twoStep (limInit capI, limInit capR)).2.queue =
      (evs.foldl twoStep (limInit capI, limInit capR)).2.submitted
    rw [hs]
    exact hinvR.2.2
  · intro e
    show ((evs ++ [ClassEv.identCall e]).foldl twoStep
      (limInit capI, limInit capR)).2 = _
    rw [List.foldl_append]
    rfl
  · intro e
    show ((evs ++ [ClassEv.resizeCall e]).foldl twoStep
      (limInit capI, limInit capR)).1 = _
    rw [List.foldl_append]
    rfl

/-- Claim C10: a resolved question result always carries its `imgs` object,
and every role whose source image was successfully identified appears under
its key in `imgs` — with whatever `srcs` map its resizes produced, possibly
empty — so a role key is never dropped once identification succeeded; and
`imgs` only ever contains the three role keys. -/
theorem c10_role_keys {env : Env} {sch : Sched} {cfg : Config} {d : Str}
    {qd q' : QData}
    (h : createQuestionsImages env sch cfg d qd = .val q') :
    (∀ k ∈ imgKeys, ∀ fd,
      resolveSource env sch (questionImgDir d ++ ['/'] ++ k) k = some fd →
      ∃ v, createImageVariants env sch cfg (questionImgDir d ++ ['/'] ++ k)
          (cfg.apiOutputDir ++ cfg.imageOutputSubDir) k qd.roundRef.roundId
          qd.questionId = .val v ∧ (k, v) ∈ q'.imgs) ∧
    (∀ kv ∈ q'.imgs, kv.1 ∈ imgKeys) := by
  simp only [createQuestionsImages] at h
  split at h
  case isTrue hall =>
    cases h
    constructor
    · intro k hk fd hfd
      have hv : (createImageVariants env sch cfg (questionImgDir d ++ ['/'] ++ k)
          (cfg.apiOutputDir ++ cfg.imageOutputSubDir) k qd.roundRef.roundId
          qd.questionId).isVal = true := by
        rw [createImageVariants_isVal,
          ← resolveSource_isSome env sch (questionImgDir d ++ ['/'] ++ k) k, hfd]
        rfl
      obtain ⟨v, hveq⟩ := Settle.isVal_iff_exists.mp hv
      refine ⟨v, hveq, ?_⟩
      have hmm : (k, v) ∈ (imgKeys.map (fun k' =>
          (k', createImageVariants env sch cfg (questionImgDir d ++ ['/'] ++ k')
            (cfg.apiOutputDir ++ cfg.imageOutputSubDir) k' qd.roundRef.roundId
            qd.questionId))).filterMap
          (fun pr => pr.2.toOption.map (fun w => (pr.1, w))) := by
        apply List.mem_filterMap.mpr
        refine ⟨_, List.mem_map.mpr ⟨k, hk, rfl⟩, ?_⟩
        show (createImageVariants env sch cfg (questionImgDir d ++ ['/'] ++ k)
          (cfg.apiOutputDir ++ cfg.imageOutputSubDir) k qd.roundRef.roundId
          qd.questionId).toOption.map (fun w => (k, w)) = some (k, v)
        rw [hveq]
        rfl
      exact hmm
    · intro kv hkv
      obtain ⟨pr, hpr, he⟩ := List.mem_filterMap.mp hkv
      obtain ⟨k, hk, rfl⟩ := List.mem_map.mp hpr
      rcases Option.map_eq_some'.mp he with ⟨v, _, hv2⟩
      rw [← hv2]
      exact hk
  case isFalse => cases h

/-- Claim C10 witness: with every resize failing, the resolved question
still lists role `a` with an empty `srcs` map rather than dropping it. -/
theorem c10_witness :
    createQuestionsImages envAllFailResize schD cfgW ['q', '1'] qdW =
        .val qW10 ∧
      (['a'], vEmpty) ∈ qW10.imgs := by
  have h : createQuestionsImages envAllFailResize schD cfgW ['q', '1'] qdW =
      .val qW10 := by decide
  obtain ⟨hroles, _⟩ := c10_role_keys h
  obtain ⟨v, hveq, hmem⟩ := hroles ['a'] (by decide)
    ⟨⟨1, 1⟩, probePath (questionImgDir ['q', '1'] ++ ['/'] ++ ['a']) .png, ['a']⟩
    (by decide)
  have hv2 : createImageVariants envAllFailResize schD cfgW
      (questionImgDir ['q', '1'] ++ ['/'] ++ ['a'])
      (cfgW.apiOutputDir ++ cfgW.imageOutputSubDir) ['a'] qdW.roundRef.roundId
      qdW.questionId = .val vEmpty := by decide
  rw [hveq] at hv2
  exact ⟨h, (Settle.val.inj hv2) ▸ hmem⟩

end GuessFace
